import Mathlib

/-!
Verification of the routing, mount-registry and layered-authorization core of
the pi-webserver repository (src/server.ts).  JS strings are modelled as Lean
strings viewed as their character lists; `Buffer.from(s)` is modelled as the
UTF-8 byte list of `s`; `string | null` values are modelled as `Option String`
with JS truthiness (`null` and `""` are falsy) made explicit.
-/

namespace PiWeb

/-- Model of JS `s.startsWith(pre)` at the code-unit level. -/
def jsStartsWith (s pre : String) : Bool :=
  pre.data.isPrefixOf s.data

/-- Model of JS `s.slice(n)` for a nonnegative index. -/
def jsSlice (s : String) (n : Nat) : String :=
  String.mk (s.data.drop n)

/-- UTF-8 encoding of a single character, as byte values. -/
def utf8Bytes (c : Char) : List Nat :=
  if c.toNat < 128 then [c.toNat]
  else if c.toNat < 2048 then [192 + c.toNat / 64, 128 + c.toNat % 64]
  else if c.toNat < 65536 then
    [224 + c.toNat / 4096, 128 + c.toNat / 64 % 64, 128 + c.toNat % 64]
  else
    [240 + c.toNat / 262144, 128 + c.toNat / 4096 % 64, 128 + c.toNat / 64 % 64,
      128 + c.toNat % 64]

/-- UTF-8 encoding of a string, modelling `Buffer.from(s)`. -/
def strBytes (s : String) : List Nat :=
  s.data.foldr (fun c r => utf8Bytes c ++ r) []

/-- Value of one base64 alphabet character; `none` for characters the lenient
Node decoder skips. -/
def b64Val (c : Char) : Option Nat :=
  if 'A' ≤ c ∧ c ≤ 'Z' then some (c.toNat - 65)
  else if 'a' ≤ c ∧ c ≤ 'z' then some (c.toNat - 97 + 26)
  else if '0' ≤ c ∧ c ≤ '9' then some (c.toNat - 48 + 52)
  else if c = '+' then some 62
  else if c = '/' then some 63
  else none

/-- Bit accumulator turning 6-bit base64 values into bytes. -/
def b64Accum : List Nat → Nat → Nat → List Nat
  | [], _, _ => []
  | v :: vs, acc, bits =>
    let acc2 := acc * 64 + v
    let bits2 := bits + 6
    if 8 ≤ bits2 then
      (acc2 / 2 ^ (bits2 - 8)) % 256 :: b64Accum vs (acc2 % 2 ^ (bits2 - 8)) (bits2 - 8)
    else b64Accum vs acc2 bits2

/-- Model of `Buffer.from(s, "base64")`: decode the base64 alphabet characters
of `s` into bytes. -/
def base64Decode (s : String) : List Nat :=
  b64Accum (s.data.filterMap b64Val) 0 0

/-- JS truthiness of an optional boolean (`undefined` and `false` are falsy). -/
def truthyB : Option Bool → Bool
  | some b => b
  | none => false

/-- JS truthiness of a `string | null` value (`null` and `""` are falsy). -/
def jsTruthyStr : Option String → Bool
  | some s => !(s == "")
  | none => false

/-- `MountConfig` of src/server.ts (the opaque handler is identified by the
registration itself). -/
structure MountConfig where
  name : String
  label : Option String
  description : Option String
  pfx : String
  skipAuth : Option Bool
deriving DecidableEq, Repr

/-- `MountInfo` of src/server.ts. -/
structure MountInfo where
  name : String
  label : String
  description : Option String
  pfx : String
  skipAuth : Option Bool
deriving DecidableEq, Repr

/-- JS `Map.set` keyed by `name`: replace in place if present, append if new. -/
def mapSet (reg : List MountConfig) (c : MountConfig) : List MountConfig :=
  if reg.any (fun m => m.name == c.name) then
    reg.map (fun m => if m.name == c.name then c else m)
  else reg ++ [c]

/-- Model of `config.prefix.replace(/\/+$/, "")`. -/
def dropTrailingSlashes (s : String) : String :=
  String.mk ((s.data.reverse.dropWhile (fun c => c == '/')).reverse)

/-- The normalization performed by `mount`: strip trailing slashes, ensure a
leading slash. -/
def normalizePfx (p : String) : String :=
  if jsStartsWith (dropTrailingSlashes p) "/" then dropTrailingSlashes p
  else "/" ++ dropTrailingSlashes p

/-- `mount` of src/server.ts. -/
def mount (reg : List MountConfig) (config : MountConfig) : List MountConfig :=
  mapSet reg { config with
    pfx := normalizePfx config.pfx,
    label := some (config.label.getD config.name) }

/-- `unmount` of src/server.ts: the new registry and whether the name existed. -/
def unmount (reg : List MountConfig) (n : String) : List MountConfig × Bool :=
  (reg.filter (fun m => !(m.name == n)), reg.any (fun m => m.name == n))

/-- `mountApi` of src/server.ts: normalize, prepend "/api", then `mount`. -/
def mountApi (reg : List MountConfig) (config : MountConfig) : List MountConfig :=
  mount reg { config with pfx := "/api" ++ normalizePfx config.pfx }

/-- `getMounts` of src/server.ts (`skipAuth: m.skipAuth || undefined`). -/
def getMounts (reg : List MountConfig) : List MountInfo :=
  reg.map (fun m =>
    { name := m.name
      label := m.label.getD m.name
      description := m.description
      pfx := m.pfx
      skipAuth := if truthyB m.skipAuth then m.skipAuth else none })

/-- `getApiMounts` of src/server.ts: filter by `m.prefix.startsWith("/api")`. -/
def getApiMounts (reg : List MountConfig) : List MountInfo :=
  (getMounts reg).filter (fun m => jsStartsWith m.pfx "/api")

/-- Registry operations reachable through the registration interface. -/
inductive RegOp where
  | reg (config : MountConfig)
  | regApi (config : MountConfig)
  | unreg (n : String)

/-- Apply one registry operation. -/
def applyOp (reg : List MountConfig) : RegOp → List MountConfig
  | .reg c => mount reg c
  | .regApi c => mountApi reg c
  | .unreg n => (unmount reg n).1

/-- Registry state after a sequence of operations from the empty registry. -/
def runOps (ops : List RegOp) : List MountConfig :=
  ops.foldl applyOp []

/-- The observable parts of an error response written by the server. -/
structure HttpResponse where
  status : Nat
  wwwAuth : Option String
  errorMsg : Option String
deriving DecidableEq, Repr

/-- The single 401 written by `checkAuth` on every failure path. -/
def basicDeniedResp : HttpResponse :=
  { status := 401
    wwwAuth := some "Basic realm=\"pi web server\""
    errorMsg := some "Unauthorized" }

/-- The 401 written by `checkApiAuth` for a wrong or missing token. -/
def token401 : HttpResponse :=
  { status := 401, wwwAuth := none, errorMsg := some "Invalid or missing API token" }

/-- The 403 written by `checkApiAuth` for a read token on a write method. -/
def read403 : HttpResponse :=
  { status := 403, wwwAuth := none
    errorMsg := some "Read-only token cannot be used for write requests" }

/-- The 404 written when no mount matches. -/
def notFound404 : HttpResponse :=
  { status := 404, wwwAuth := none, errorMsg := some "Not found" }

/-- Result of `getAuth` of src/server.ts. -/
structure AuthStatus where
  enabled : Bool
  username : Option String
deriving DecidableEq, Repr

/-- `getAuth` of src/server.ts: status only, never the password. -/
def getAuth : Option (String × String) → AuthStatus
  | none => { enabled := false, username := none }
  | some (u, _) => { enabled := true, username := some u }

/-- `getApiTokenStatus` of src/server.ts: `(enabled, readEnabled)`. -/
def getApiTokenStatus (apiToken apiReadToken : Option String) : Bool × Bool :=
  (apiToken.isSome, apiReadToken.isSome)

/-- Model of `crypto.timingSafeEqual` on equal-length byte lists: scan all
byte pairs, accumulate whether any differ, compare once at the end. -/
def timingSafeEq (xs ys : List Nat) : Bool :=
  !((xs.zip ys).foldl (fun acc p => acc || !(p.1 == p.2)) false)

/-- `tokensEqual` of src/server.ts: falsy operand or byte-length mismatch is an
immediate non-match, otherwise a full constant-time byte comparison. -/
def tokensEqual : Option String → Option String → Bool
  | some a, some b =>
    if a == "" || b == "" then false
    else if !((strBytes a).length == (strBytes b).length) then false
    else timingSafeEq (strBytes a) (strBytes b)
  | none, _ => false
  | some _, none => false

/-- Number of byte comparisons `tokensEqual` performs: zero on a falsy operand
or a length mismatch, the whole buffer length otherwise. -/
def tokensEqualSteps : Option String → Option String → Nat
  | some a, some b =>
    if a == "" || b == "" then 0
    else if !((strBytes a).length == (strBytes b).length) then 0
    else (strBytes a).length
  | none, _ => 0
  | some _, none => 0

/-- Outcome of a token gate check. -/
inductive ApiAuthResult where
  | ok
  | denied (resp : HttpResponse)
deriving DecidableEq, Repr

/-- The bearer value extracted from the Authorization header
(`header?.startsWith("Bearer ") ? header.slice(7) : null`). -/
def bearerOf (header : Option String) : Option String :=
  match header with
  | some h => if jsStartsWith h "Bearer " then some (jsSlice h 7) else none
  | none => none

/-- `checkApiAuth` of src/server.ts (the `bearer` and `isRead` locals of the
source are inlined). -/
def checkApiAuth (apiToken apiReadToken : Option String) (method : String)
    (header : Option String) : ApiAuthResult :=
  if !(jsTruthyStr apiToken) && !(jsTruthyStr apiReadToken) then .ok
  else if tokensEqual (bearerOf header) apiToken then .ok
  else if tokensEqual (bearerOf header) apiReadToken then
    if method == "GET" || method == "HEAD" then .ok else .denied read403
  else .denied token401

/-- Split the decoded credential at the first colon byte (58) and compare the
two fields, as `checkAuth` does with `indexOf(":")` and the two slices. -/
def basicMatch (decoded : List Nat) (u pw : String) : Bool :=
  match decoded.findIdx? (fun b => b == 58) with
  | some i => decoded.take i == strBytes u && decoded.drop (i + 1) == strBytes pw
  | none => false

/-- Decision part of `checkAuth` of src/server.ts: Basic credential decoded
from base64 and split at the first colon byte. -/
def checkAuthBool (creds : Option (String × String)) (header : Option String) : Bool :=
  match creds with
  | none => true
  | some (u, pw) =>
    match header with
    | some h =>
      if jsStartsWith h "Basic " then basicMatch (base64Decode (jsSlice h 6)) u pw
      else false
    | none => false

/-- Outcome of the session gate check. -/
inductive BasicAuthResult where
  | ok
  | denied (resp : HttpResponse)
deriving DecidableEq, Repr

/-- `checkAuth` of src/server.ts: every failure path writes the one 401. -/
def checkAuth (creds : Option (String × String)) (header : Option String) : BasicAuthResult :=
  if checkAuthBool creds header then .ok else .denied basicDeniedResp

/-- The process-wide configuration read by the request handler. -/
structure ServerConfig where
  mounts : List MountConfig
  authCredentials : Option (String × String)
  apiToken : Option String
  apiReadToken : Option String
deriving DecidableEq, Repr

/-- Observable outcome of dispatching one request. -/
inductive Outcome where
  | preflight
  | response (resp : HttpResponse)
  | dashboard
  | mountList (l : List MountInfo)
  | apiListing (ms : List MountInfo) (tokenAuth readTokenAuth : Bool)
  | handler (m : MountConfig) (subPath : String)
deriving DecidableEq, Repr

/-- The router's match condition:
`pathname === config.prefix || pathname.startsWith(config.prefix + "/")`. -/
def matchesPath (pathname : String) (c : MountConfig) : Bool :=
  pathname == c.pfx || jsStartsWith pathname (c.pfx ++ "/")

/-- The router loop of `start`: keep the first seen match of maximal length
(replacement only on strictly greater length). -/
def routeLoop (pathname : String) : List MountConfig → Option MountConfig → Option MountConfig
  | [], best => best
  | c :: cs, best =>
    if matchesPath pathname c then
      match best with
      | none => routeLoop pathname cs (some c)
      | some b =>
        if b.pfx.data.length < c.pfx.data.length then routeLoop pathname cs (some c)
        else routeLoop pathname cs (some b)
    else routeLoop pathname cs best

/-- `bestMatch` as computed by the router loop over the registry. -/
def bestMatch (reg : List MountConfig) (pathname : String) : Option MountConfig :=
  routeLoop pathname reg none

/-- `pathname.slice(bestMatch.prefix.length) || "/"`. -/
def subPathOf (pathname : String) (c : MountConfig) : String :=
  if jsSlice pathname c.pfx.data.length == "" then "/"
  else jsSlice pathname c.pfx.data.length

/-- `pathname === "/api" || pathname.startsWith("/api/")`. -/
def isApiPathB (pathname : String) : Bool :=
  pathname == "/api" || jsStartsWith pathname "/api/"

/-- The request handler installed by `start`, after the CORS headers: preflight,
session gate for non-API paths, API listing, dashboard, mount listing, router,
gated unmatched-API 404, plain 404. -/
def dispatch (cfg : ServerConfig) (method pathname : String) (header : Option String) : Outcome :=
  if method == "OPTIONS" then .preflight
  else if !(isApiPathB pathname) && !(checkAuthBool cfg.authCredentials header) then
    .response basicDeniedResp
  else if pathname == "/api" || pathname == "/api/" then
    match checkApiAuth cfg.apiToken cfg.apiReadToken method header with
    | .denied r => .response r
    | .ok => .apiListing (getApiMounts cfg.mounts) cfg.apiToken.isSome cfg.apiReadToken.isSome
  else if pathname == "/" || pathname == "" then .dashboard
  else if pathname == "/_api/mounts" then .mountList (getMounts cfg.mounts)
  else
    match bestMatch cfg.mounts pathname with
    | some m =>
      if isApiPathB pathname && !(truthyB m.skipAuth) then
        match checkApiAuth cfg.apiToken cfg.apiReadToken method header with
        | .denied r => .response r
        | .ok => .handler m (subPathOf pathname m)
      else .handler m (subPathOf pathname m)
    | none =>
      if isApiPathB pathname then
        match checkApiAuth cfg.apiToken cfg.apiReadToken method header with
        | .denied r => .response r
        | .ok => .response notFound404
      else .response notFound404

/-- `server`/`serverPort` module state of src/server.ts. -/
structure LifecycleState where
  serverLive : Bool
  serverPort : Option Nat
deriving DecidableEq, Repr

/-- `stop` of src/server.ts: result and next state. -/
def stop (st : LifecycleState) : Bool × LifecycleState :=
  if st.serverLive then (true, { serverLive := false, serverPort := none })
  else (false, st)

/-- State effect of `start(port)`: stop if live, then record the new server. -/
def startServer (port : Nat) (st : LifecycleState) : LifecycleState :=
  let st1 := if st.serverLive then (stop st).2 else st
  { st1 with serverLive := true, serverPort := some port }

/-- `isRunning` of src/server.ts. -/
def isRunning (st : LifecycleState) : Bool := st.serverLive

/-- `getPort` of src/server.ts. -/
def getPort (st : LifecycleState) : Option Nat := st.serverPort

/-- `getUrl` of src/server.ts (`serverPort ? url : null`, so port 0 is falsy). -/
def getUrl (st : LifecycleState) : Option String :=
  match st.serverPort with
  | some p => if p == 0 then none else some ("http://localhost:" ++ toString p)
  | none => none

/-- Lifecycle operations. -/
inductive LifeOp where
  | strt (port : Nat)
  | stp

/-- Apply one lifecycle operation. -/
def applyLife (st : LifecycleState) : LifeOp → LifecycleState
  | .strt p => startServer p st
  | .stp => (stop st).2

/-- The state at module load: no server, no port. -/
def initialLifecycle : LifecycleState :=
  { serverLive := false, serverPort := none }

/-- Lifecycle state after a sequence of start/stop calls. -/
def runLife (ops : List LifeOp) : LifecycleState :=
  ops.foldl applyLife initialLifecycle

/-- A `string | null` token as the spec's "configured" notion would have to
read it to match the code: a token set to `""` behaves as not configured. -/
def normTok : Option String → Option String
  | some s => if s == "" then none else some s
  | none => none

/-- Modelled from the spec (§4.4, C2): the claimed tiered token-gate decision,
with token equality taken as byte comparison of the buffers as the spec
prescribes.  Used as the specification side of the refinement theorem. -/
def claimApiGate (full read : Option String) (method : String)
    (bearer : Option String) : ApiAuthResult :=
  if full = none ∧ read = none then .ok
  else
    match bearer with
    | none => .denied token401
    | some bv =>
      if (match full with
          | some f => strBytes bv == strBytes f
          | none => false) then .ok
      else if (match read with
          | some r => strBytes bv == strBytes r
          | none => false) then
        if method == "GET" || method == "HEAD" then .ok else .denied read403
      else .denied token401

/-- The string begins with the character "/". -/
def startsSlash (s : String) : Prop := s.data.head? = some '/'

/-- The string ends with the character "/". -/
def endsSlash (s : String) : Prop := s.data.getLast? = some '/'

instance (s : String) : Decidable (startsSlash s) := by
  unfold startsSlash; infer_instance

instance (s : String) : Decidable (endsSlash s) := by
  unfold endsSlash; infer_instance

/-! ## Helper lemmas -/

theorem foldl_or_any {α : Type} (f : α → Bool) (l : List α) :
    ∀ a : Bool, l.foldl (fun acc x => acc || f x) a = (a || l.any f) := by
  induction l with
  | nil => intro a; simp
  | cons x xs ih => intro a; simp [List.any_cons, ih, Bool.or_assoc]

theorem zip_any_ne_iff :
    ∀ (xs ys : List Nat), xs.length = ys.length →
      ((((xs.zip ys).any fun p => !(p.1 == p.2)) = false) ↔ xs = ys) := by
  intro xs
  induction xs with
  | nil => intro ys h; cases ys <;> simp_all
  | cons x xt ih =>
    intro ys h
    cases ys with
    | nil => simp at h
    | cons y yt =>
      have h' : xt.length = yt.length := by simpa using h
      simp [List.zip_cons_cons, List.any_cons, ih yt h']

theorem timingSafeEq_eq_true_iff {xs ys : List Nat} (h : xs.length = ys.length) :
    timingSafeEq xs ys = true ↔ xs = ys := by
  unfold timingSafeEq
  rw [foldl_or_any]
  simp only [Bool.false_or, Bool.not_eq_true']
  exact zip_any_ne_iff xs ys h

theorem tokensEqual_some_iff (a b : String) :
    tokensEqual (some a) (some b) = true ↔ (a ≠ "" ∧ b ≠ "" ∧ strBytes a = strBytes b) := by
  by_cases ha : a = ""
  · simp [tokensEqual, ha]
  · by_cases hb : b = ""
    · simp [tokensEqual, ha, hb]
    · by_cases hl : (strBytes a).length = (strBytes b).length
      · simp [tokensEqual, ha, hb, hl, timingSafeEq_eq_true_iff hl]
      · have hl' : ((strBytes a).length == (strBytes b).length) = false := by
          simpa using hl
        simp only [tokensEqual, show (a == "") = false from by simpa using ha,
          show (b == "") = false from by simpa using hb, Bool.or_self, hl',
          Bool.not_false, if_true, Bool.false_eq_true, if_false]
        refine iff_of_false (by simp) ?_
        rintro ⟨-, -, h⟩
        exact hl (congrArg List.length h)

theorem utf8Bytes_ne_nil (c : Char) : utf8Bytes c ≠ [] := by
  unfold utf8Bytes
  split
  · simp
  · split
    · simp
    · split <;> simp

theorem strBytes_eq_nil_iff (s : String) : strBytes s = [] ↔ s = "" := by
  cases s with
  | mk l =>
    cases l with
    | nil =>
      refine iff_of_true rfl rfl
    | cons c cs =>
      unfold strBytes
      simp only [List.foldr_cons, List.append_eq_nil]
      refine iff_of_false ?_ ?_
      · rintro ⟨h, -⟩
        exact utf8Bytes_ne_nil c h
      · intro h
        exact absurd (congrArg String.data h) (by simp)

theorem tokensEqual_normTok (bv : String) (t : Option String) :
    tokensEqual (some bv) t =
      (match normTok t with
        | some f => strBytes bv == strBytes f
        | none => false) := by
  cases t with
  | none => rfl
  | some s =>
    by_cases hs : s = ""
    · subst hs
      simp [normTok, tokensEqual]
    · have hn : normTok (some s) = some s := by simp [normTok, hs]
      rw [hn]
      rw [Bool.eq_iff_iff]
      rw [tokensEqual_some_iff, beq_iff_eq]
      constructor
      · rintro ⟨-, -, h⟩; exact h
      · intro h
        refine ⟨?_, hs, h⟩
        intro hbv
        rw [hbv] at h
        have : strBytes s = [] := h.symm.trans (by rfl)
        exact hs ((strBytes_eq_nil_iff s).mp this)

theorem normTok_eq_none_iff (t : Option String) :
    normTok t = none ↔ jsTruthyStr t = false := by
  cases t with
  | none => simp [normTok, jsTruthyStr]
  | some s => by_cases hs : s = "" <;> simp [normTok, jsTruthyStr, hs]

theorem tokensEqual_none_left (x : Option String) : tokensEqual none x = false := by
  cases x <;> rfl

theorem tokensEqual_none_right (x : Option String) : tokensEqual x none = false := by
  cases x <;> rfl

/-! ## C2 — Token Auth Gate decision -/

/-- C2 (counterexample): with the full token configured as the empty string
(`setApiToken("")`), the code treats the gate as open and allows a request with
a wrong bearer value, where the claim as stated demands a 401. -/
theorem checkApiAuth_cex :
    checkApiAuth (some "") none "GET" (some "Bearer x") = .ok
    ∧ (some "" : Option String) ≠ none
    ∧ claimApiGate (some "") none "GET" (some "x") = .denied token401
    ∧ (ApiAuthResult.ok ≠ .denied token401) := by
  refine ⟨by decide, by simp, by decide, by decide⟩

/-- C2 (amended): the tiered token-gate decision of the claim holds once
"configured" is read as "set to a non-empty string" (a token set to `""`
behaves as not configured): the gate allows everything when neither token is
configured; otherwise a bearer byte-equal to the full token is allowed for any
method, a bearer byte-equal to the read token is allowed exactly for GET/HEAD
and receives the 403 otherwise, and every remaining case receives the 401. -/
theorem checkApiAuth_matches_claim (full read : Option String) (method : String)
    (header : Option String) :
    checkApiAuth full read method header =
      claimApiGate (normTok full) (normTok read) method (bearerOf header) := by
  unfold checkApiAuth claimApiGate
  by_cases hopen : normTok full = none ∧ normTok read = none
  · have h1 : jsTruthyStr full = false := (normTok_eq_none_iff full).mp hopen.1
    have h2 : jsTruthyStr read = false := (normTok_eq_none_iff read).mp hopen.2
    simp [h1, h2, hopen.1, hopen.2]
  · have htr : (!(jsTruthyStr full) && !(jsTruthyStr read)) = false := by
      rcases not_and_or.mp hopen with h | h
      · have : jsTruthyStr full = true := by
          cases hv : jsTruthyStr full
          · exact absurd ((normTok_eq_none_iff full).mpr hv) h
          · rfl
        simp [this]
      · have : jsTruthyStr read = true := by
          cases hv : jsTruthyStr read
          · exact absurd ((normTok_eq_none_iff read).mpr hv) h
          · rfl
        simp [this]
    rw [htr, if_neg hopen]
    simp only [Bool.false_eq_true, if_false]
    rcases hb : bearerOf header with _ | bv
    · rw [tokensEqual_none_left, tokensEqual_none_left]
      rfl
    · rw [tokensEqual_normTok bv full, tokensEqual_normTok bv read]

/-! ## C8 — token comparison -/

/-- C8 (counterexample): `tokensEqual(some "", some "")` is `false` although
both arguments are non-null and byte-for-byte equal, refuting the claimed
functional characterization. -/
theorem tokensEqual_cex :
    tokensEqual (some "") (some "") = false
    ∧ (some "" : Option String) ≠ none
    ∧ strBytes "" = strBytes "" := by
  refine ⟨by decide, by simp, rfl⟩

/-- C8 (amended): `tokensEqual` is true exactly when both arguments are
non-null, non-empty and byte-for-byte equal; a null operand never matches; a
byte-length mismatch is an immediate non-match performing no byte comparison;
and for accepted-length inputs the number of byte comparisons performed
depends only on the byte lengths, never on the byte contents. -/
theorem tokensEqual_spec :
    (∀ a b : String, tokensEqual (some a) (some b) = true ↔
        (a ≠ "" ∧ b ≠ "" ∧ strBytes a = strBytes b))
    ∧ (∀ x : Option String, tokensEqual none x = false ∧ tokensEqual x none = false)
    ∧ (∀ a b : String, (strBytes a).length ≠ (strBytes b).length →
        tokensEqual (some a) (some b) = false ∧ tokensEqualSteps (some a) (some b) = 0)
    ∧ (∀ a b a' b' : String, a ≠ "" → b ≠ "" → a' ≠ "" → b' ≠ "" →
        (strBytes a).length = (strBytes a').length →
        (strBytes b).length = (strBytes b').length →
        tokensEqualSteps (some a) (some b) = tokensEqualSteps (some a') (some b')) := by
  refine ⟨tokensEqual_some_iff, ?_, ?_, ?_⟩
  · intro x; exact ⟨tokensEqual_none_left x, tokensEqual_none_right x⟩
  · intro a b hl
    constructor
    · cases hv : tokensEqual (some a) (some b)
      · rfl
      · exact absurd (((tokensEqual_some_iff a b).mp hv).2.2) (fun h => hl (congrArg List.length h))
    · unfold tokensEqualSteps
      rcases h1 : (a == "") with _ | _ <;> rcases h2 : (b == "") with _ | _ <;>
        simp_all
  · intro a b a' b' ha hb ha' hb' h1 h2
    unfold tokensEqualSteps
    simp only [show (a == "") = false from by simpa using ha,
      show (b == "") = false from by simpa using hb,
      show (a' == "") = false from by simpa using ha',
      show (b' == "") = false from by simpa using hb',
      Bool.or_self, Bool.false_or, if_false, h1, h2]

/-- C8 (witness): the amended characterization evaluated at concrete tokens. -/
theorem tokensEqual_spec_witness :
    tokensEqual (some "F") (some "F") = true
    ∧ tokensEqual (some "F") (some "G") = false := by
  constructor
  · exact (tokensEqual_spec.1 "F" "F").mpr ⟨by decide, by decide, rfl⟩
  · cases hv : tokensEqual (some "F") (some "G")
    · rfl
    · have := (tokensEqual_spec.1 "F" "G").mp hv
      exact absurd this.2.2 (by decide)

/-! ## C6 — prefix normalization invariant -/

theorem dropWhile_head?_false {α : Type} (q : α → Bool) (l : List α) :
    ∀ x, (l.dropWhile q).head? = some x → q x = false := by
  induction l with
  | nil => intro x h; simp at h
  | cons a t ih =>
    intro x h
    rw [List.dropWhile_cons] at h
    by_cases hq : q a = true
    · rw [if_pos hq] at h; exact ih x h
    · rw [if_neg hq] at h
      rw [List.head?_cons, Option.some.injEq] at h
      rw [← h]
      simpa using hq

theorem dropTrailingSlashes_no_trailing (p : String) :
    ¬ endsSlash (dropTrailingSlashes p) := by
  intro h
  unfold endsSlash dropTrailingSlashes at h
  rw [show (String.mk ((p.data.reverse.dropWhile (fun c => c == '/')).reverse)).data
      = (p.data.reverse.dropWhile (fun c => c == '/')).reverse from rfl] at h
  rw [List.getLast?_reverse] at h
  have := dropWhile_head?_false (fun c => c == '/') p.data.reverse '/' h
  simp at this

theorem startsSlash_normalizePfx (p : String) : startsSlash (normalizePfx p) := by
  unfold normalizePfx
  by_cases h : jsStartsWith (dropTrailingSlashes p) "/" = true
  · rw [if_pos h]
    unfold jsStartsWith at h
    rw [List.isPrefixOf_iff_prefix] at h
    obtain ⟨t, ht⟩ := h
    unfold startsSlash
    rw [← ht]
    rfl
  · rw [if_neg h]
    unfold startsSlash
    rw [String.data_append]
    rfl

theorem normalizePfx_or_root (p : String) :
    normalizePfx p = "/" ∨ ¬ endsSlash (normalizePfx p) := by
  unfold normalizePfx
  by_cases h : jsStartsWith (dropTrailingSlashes p) "/" = true
  · rw [if_pos h]
    exact Or.inr (dropTrailingSlashes_no_trailing p)
  · rw [if_neg h]
    rcases hd : (dropTrailingSlashes p).data with _ | ⟨c, t⟩
    · left
      have he : dropTrailingSlashes p = "" := String.ext (by rw [hd])
      rw [he, String.append_empty]
    · right
      intro hend
      unfold endsSlash at hend
      rw [String.data_append, hd, List.getLast?_append] at hend
      have hnt := dropTrailingSlashes_no_trailing p
      unfold endsSlash at hnt
      rw [hd] at hnt
      rcases hg : (c :: t).getLast? with _ | x
      · exact absurd hg (by simp)
      · rw [hg] at hend hnt
        simp only [Option.or_some] at hend
        exact hnt (by rw [hend])

theorem dropTrailingSlashes_eq_empty_iff (p : String) :
    dropTrailingSlashes p = "" ↔ ∀ ch ∈ p.data, ch = '/' := by
  constructor
  · intro h
    have hd : (p.data.reverse.dropWhile (fun c => c == '/')).reverse = [] :=
      congrArg String.data h
    rw [List.reverse_eq_nil_iff, List.dropWhile_eq_nil_iff] at hd
    intro ch hch
    simpa using hd ch (List.mem_reverse.mpr hch)
  · intro hall
    apply String.ext
    show (p.data.reverse.dropWhile (fun c => c == '/')).reverse = _
    rw [show ("" : String).data = ([] : List Char) from rfl]
    rw [List.reverse_eq_nil_iff, List.dropWhile_eq_nil_iff]
    intro x hx
    simp [hall x (List.mem_reverse.mp hx)]

theorem normalizePfx_eq_root_iff (p : String) :
    normalizePfx p = "/" ↔ ∀ ch ∈ p.data, ch = '/' := by
  rw [← dropTrailingSlashes_eq_empty_iff]
  unfold normalizePfx
  by_cases h : jsStartsWith (dropTrailingSlashes p) "/" = true
  · rw [if_pos h]
    refine iff_of_false ?_ ?_
    · intro he
      exact dropTrailingSlashes_no_trailing p (by rw [he]; decide)
    · intro he
      rw [he] at h
      exact absurd h (by decide)
  · rw [if_neg h]
    constructor
    · intro he
      apply String.ext
      have h2 : '/' :: (dropTrailingSlashes p).data = ['/'] := by
        have h3 := congrArg String.data he
        rwa [String.data_append] at h3
      show (dropTrailingSlashes p).data = ([] : List Char)
      simpa using h2
    · intro he
      rw [he, String.append_empty]

theorem mapSet_mem {reg : List MountConfig} {c d : MountConfig} (h : d ∈ mapSet reg c) :
    d ∈ reg ∨ d = c := by
  unfold mapSet at h
  by_cases hex : reg.any (fun m => m.name == c.name) = true
  · rw [if_pos hex] at h
    obtain ⟨m, hm, hmd⟩ := List.mem_map.mp h
    by_cases hname : (m.name == c.name) = true
    · rw [if_pos hname] at hmd; right; exact hmd.symm
    · rw [if_neg hname] at hmd; left; exact hmd ▸ hm
  · rw [if_neg hex] at h
    rcases List.mem_append.mp h with h | h
    · left; exact h
    · right; simpa using h

theorem mount_pfx_shape {reg : List MountConfig} {config d : MountConfig}
    (h : d ∈ mount reg config)
    (hreg : ∀ c ∈ reg, startsSlash c.pfx ∧ (c.pfx = "/" ∨ ¬ endsSlash c.pfx)) :
    startsSlash d.pfx ∧ (d.pfx = "/" ∨ ¬ endsSlash d.pfx) := by
  rcases mapSet_mem h with h | h
  · exact hreg d h
  · rw [h]
    exact ⟨startsSlash_normalizePfx config.pfx, normalizePfx_or_root config.pfx⟩

theorem registry_invariant_aux (ops : List RegOp) :
    ∀ reg, (∀ c ∈ reg, startsSlash c.pfx ∧ (c.pfx = "/" ∨ ¬ endsSlash c.pfx)) →
      ∀ c ∈ ops.foldl applyOp reg, startsSlash c.pfx ∧ (c.pfx = "/" ∨ ¬ endsSlash c.pfx) := by
  induction ops with
  | nil => intro reg h; simpa using h
  | cons op rest ih =>
    intro reg h
    rw [List.foldl_cons]
    apply ih
    intro c hc
    cases op with
    | reg cfg => exact mount_pfx_shape hc h
    | regApi cfg =>
      unfold applyOp mountApi at hc
      exact mount_pfx_shape hc h
    | unreg n =>
      unfold applyOp unmount at hc
      exact h c (List.mem_filter.mp hc).1

/-- C6 (counterexample): `mount` with the supplied path "/" stores the bare
root "/" as the registered prefix, which both ends with "/" and is the
disallowed root, refuting the claimed invariant. -/
theorem mount_root_pfx_cex :
    (mount [] ⟨"x", none, none, "/", none⟩) = [⟨"x", some "x", none, "/", none⟩]
    ∧ endsSlash "/" ∧ ¬ ("/" : String) ≠ "/" := by
  refine ⟨by decide, by decide, by simp⟩

/-- C6 (amended): after any sequence of register/unregister operations
(including the /api-scoped variant), every prefix stored in the registry
begins with "/", and either has no trailing "/" or is exactly the root "/";
the root case arises exactly when the supplied prefix consists only of
slashes (in particular it never arises via the /api-scoped variant, whose
prefixes contain the letters of "/api"). -/
theorem registry_pfx_invariant (ops : List RegOp) :
    (∀ c ∈ runOps ops, startsSlash c.pfx ∧ (c.pfx = "/" ∨ ¬ endsSlash c.pfx))
    ∧ (∀ p : String, normalizePfx p = "/" ↔ ∀ ch ∈ p.data, ch = '/') := by
  constructor
  · exact registry_invariant_aux ops [] (by intro c hc; simp at hc)
  · exact normalizePfx_eq_root_iff

/-- C6 (witness): the amended invariant evaluated on a concrete history. -/
theorem registry_pfx_invariant_witness :
    startsSlash "/crm"
    ∧ ("/crm" = "/" ∨ ¬ endsSlash "/crm")
    ∧ (normalizePfx "///" = "/" ↔ ∀ ch ∈ ("///" : String).data, ch = '/') := by
  have h := registry_pfx_invariant [RegOp.reg ⟨"c", none, none, "crm/", none⟩]
  refine ⟨?_, ?_, h.2 "///"⟩
  · exact (h.1 ⟨"c", some "c", none, "/crm", none⟩ (by decide)).1
  · exact (h.1 ⟨"c", some "c", none, "/crm", none⟩ (by decide)).2

/-! ## C7 — API-root listing contents -/

/-- C7 (counterexample): a registered mount with the general-namespace
path "/apiary" (its own requests are not API-namespace requests) is included
in the API listing, because the code filters with `startsWith("/api")`. -/
theorem getApiMounts_cex :
    getApiMounts [⟨"z", none, none, "/apiary", none⟩] = [⟨"z", "z", none, "/apiary", none⟩]
    ∧ ¬ (("/apiary" : String) = "/api" ∨ jsStartsWith "/apiary" "/api/" = true)
    ∧ isApiPathB "/apiary" = false := by
  refine ⟨by decide, by decide, by decide⟩

/-- C7 (amended): the API listing contains exactly the registered mounts whose
prefix begins with the character string "/api" (which includes mounts such as
"/apiary" that are outside the /api path subtree); the API-root dispatch
returns precisely this listing when the token gate allows the request. -/
theorem getApiMounts_spec :
    (∀ (reg : List MountConfig) (mi : MountInfo),
        mi ∈ getApiMounts reg ↔ (mi ∈ getMounts reg ∧ jsStartsWith mi.pfx "/api" = true))
    ∧ (∀ (cfg : ServerConfig) (method : String) (header : Option String),
        method ≠ "OPTIONS" →
        checkApiAuth cfg.apiToken cfg.apiReadToken method header = .ok →
        dispatch cfg method "/api" header =
          .apiListing (getApiMounts cfg.mounts) cfg.apiToken.isSome cfg.apiReadToken.isSome) := by
  constructor
  · intro reg mi
    unfold getApiMounts
    exact List.mem_filter
  · intro cfg method header hm hok
    unfold dispatch
    rw [if_neg (by simpa using hm)]
    rw [if_neg (by rw [show isApiPathB "/api" = true from by decide]; simp)]
    rw [if_pos (by decide), hok]

/-- C7 (witness): the amended characterization evaluated concretely. -/
theorem getApiMounts_spec_witness :
    (⟨"z", "z", none, "/api/x", none⟩ : MountInfo) ∈
      getApiMounts [⟨"z", none, none, "/api/x", none⟩]
    ∧ dispatch ⟨[], none, none, none⟩ "GET" "/api" none = .apiListing [] false false := by
  constructor
  · exact (getApiMounts_spec.1 _ _).mpr ⟨by decide, by decide⟩
  · exact getApiMounts_spec.2 _ "GET" none (by decide) (by decide)

/-! ## C5 — Session Auth Gate -/

theorem jsStartsWith_iff (s pre : String) :
    jsStartsWith s pre = true ↔ ∃ t : String, s = pre ++ t := by
  unfold jsStartsWith
  rw [List.isPrefixOf_iff_prefix]
  constructor
  · rintro ⟨t, ht⟩
    exact ⟨String.mk t, String.ext (by rw [String.data_append]; exact ht.symm)⟩
  · rintro ⟨t, rfl⟩
    rw [String.data_append]
    exact List.prefix_append _ _

theorem jsSlice_append (pre t : String) : jsSlice (pre ++ t) pre.data.length = t := by
  apply String.ext
  show ((pre ++ t).data.drop pre.data.length) = t.data
  rw [String.data_append, List.drop_left]

theorem findIdx?_colon_of_split (A B : List Nat) (hA : (58 : Nat) ∉ A) :
    (A ++ 58 :: B).findIdx? (fun b => b == 58) = some A.length := by
  induction A with
  | nil => simp
  | cons a t ih =>
    have ha : (a == 58) = false := by
      simp only [beq_eq_false_iff_ne, ne_eq]
      intro h
      exact hA (by rw [h]; exact List.mem_cons_self 58 t)
    rw [List.cons_append, List.findIdx?_cons, ha]
    simp only [Bool.false_eq_true, if_false]
    rw [List.findIdx?_succ, ih (fun h => hA (List.mem_cons_of_mem a h))]
    rfl

theorem findIdx?_colon_split (d : List Nat) :
    ∀ i, d.findIdx? (fun b => b == 58) = some i →
      d = d.take i ++ 58 :: d.drop (i + 1) ∧ (58 : Nat) ∉ d.take i := by
  induction d with
  | nil => intro i h; simp at h
  | cons a t ih =>
    intro i h
    rw [List.findIdx?_cons] at h
    by_cases ha : (a == 58) = true
    · rw [if_pos ha] at h
      have hi : i = 0 := by simpa using h.symm
      subst hi
      have ha' : a = 58 := by simpa using ha
      subst ha'
      simp
    · rw [if_neg ha, List.findIdx?_succ] at h
      rcases ht : t.findIdx? (fun b => b == 58) with _ | j
      · rw [ht] at h; simp at h
      · rw [ht] at h
        have hi : i = j + 1 := by simpa using h.symm
        subst hi
        obtain ⟨h1, h2⟩ := ih j ht
        constructor
        · rw [List.take_succ_cons, List.drop_succ_cons]
          show a :: t = a :: (t.take j ++ 58 :: t.drop (j + 1))
          exact congrArg (a :: ·) h1
        · rw [List.take_succ_cons]
          intro hmem
          rcases List.mem_cons.mp hmem with he | hmem
          · exact absurd he.symm (by simpa using ha)
          · exact h2 hmem

theorem basicMatch_iff (d : List Nat) (u pw : String) :
    basicMatch d u pw = true ↔
      (d = strBytes u ++ 58 :: strBytes pw ∧ (58 : Nat) ∉ strBytes u) := by
  unfold basicMatch
  constructor
  · rcases hf : d.findIdx? (fun b => b == 58) with _ | i
    · intro h; simp at h
    · intro h
      rw [Bool.and_eq_true, beq_iff_eq, beq_iff_eq] at h
      obtain ⟨h1, h2⟩ := h
      obtain ⟨hsplit, hnot⟩ := findIdx?_colon_split d i hf
      constructor
      · calc d = d.take i ++ 58 :: d.drop (i + 1) := hsplit
          _ = strBytes u ++ 58 :: strBytes pw := by rw [h1, h2]
      · rw [← h1]; exact hnot
  · rintro ⟨hd, hn⟩
    subst hd
    rw [findIdx?_colon_of_split _ _ hn]
    have hdrop : (strBytes u ++ 58 :: strBytes pw).drop ((strBytes u).length + 1)
        = strBytes pw := by
      rw [show strBytes u ++ 58 :: strBytes pw = (strBytes u ++ [58]) ++ strBytes pw from
        by simp]
      exact List.drop_left' (by simp)
    show (List.take (strBytes u).length (strBytes u ++ 58 :: strBytes pw) == strBytes u
      && List.drop ((strBytes u).length + 1) (strBytes u ++ 58 :: strBytes pw)
        == strBytes pw) = true
    rw [List.take_left, hdrop]
    simp

theorem checkAuthBool_some_iff (u pw : String) (header : Option String) :
    checkAuthBool (some (u, pw)) header = true ↔
      ∃ b64 : String, header = some ("Basic " ++ b64)
        ∧ base64Decode b64 = strBytes u ++ 58 :: strBytes pw
        ∧ (58 : Nat) ∉ strBytes u := by
  cases header with
  | none => simp [checkAuthBool]
  | some h =>
    show (if jsStartsWith h "Basic " = true
        then basicMatch (base64Decode (jsSlice h 6)) u pw else false) = true ↔ _
    by_cases hs : jsStartsWith h "Basic " = true
    · rw [if_pos hs]
      obtain ⟨t, rfl⟩ := (jsStartsWith_iff h "Basic ").mp hs
      rw [show jsSlice ("Basic " ++ t) 6 = t from jsSlice_append "Basic " t]
      rw [basicMatch_iff]
      constructor
      · rintro ⟨h1, h2⟩
        exact ⟨t, rfl, h1, h2⟩
      · rintro ⟨b64, heq, h1, h2⟩
        have hteq : t = b64 := by
          have h3 := Option.some.inj heq
          have h4 := congrArg String.data h3
          rw [String.data_append, String.data_append] at h4
          exact String.ext (List.append_inj_right h4 rfl)
        rw [hteq]
        exact ⟨h1, h2⟩
    · rw [if_neg hs]
      refine iff_of_false (by simp) ?_
      rintro ⟨b64, heq, -, -⟩
      apply hs
      rw [Option.some.inj heq, jsStartsWith_iff]
      exact ⟨b64, rfl⟩

/-- C5: the session gate allows everything when no credentials are configured;
with configured credentials it allows a request exactly when the Authorization
header is `Basic` followed by a base64 value whose decoded bytes are the
configured username, a colon, and the configured password, split at the first
colon (so the password may contain colons and a username containing a colon
can never match); every failing case receives the single 401 response with
the realm challenge and the Unauthorized error body. -/
theorem checkAuth_spec :
    (∀ header, checkAuthBool none header = true)
    ∧ (∀ (u pw : String) (header : Option String),
        checkAuthBool (some (u, pw)) header = true ↔
          ∃ b64 : String, header = some ("Basic " ++ b64)
            ∧ base64Decode b64 = strBytes u ++ 58 :: strBytes pw
            ∧ (58 : Nat) ∉ strBytes u)
    ∧ (∀ creds header, checkAuthBool creds header = false →
        checkAuth creds header = .denied basicDeniedResp) := by
  refine ⟨fun _ => rfl, checkAuthBool_some_iff, ?_⟩
  intro creds header h
  unfold checkAuth
  rw [h]
  rfl

/-- C5 (witness): the gate evaluated at concrete credentials and headers. -/
theorem checkAuth_spec_witness :
    checkAuthBool (some ("pi", "secret")) (some "Basic cGk6c2VjcmV0") = true
    ∧ checkAuth (some ("pi", "secret")) (some "Basic d3Jvbmc=") =
        .denied basicDeniedResp := by
  constructor
  · exact (checkAuth_spec.2.1 "pi" "secret" (some "Basic cGk6c2VjcmV0")).mpr
      ⟨"cGk6c2VjcmV0", by decide, by decide, by decide⟩
  · exact checkAuth_spec.2.2 _ _ (by decide)

/-! ## Dispatch reduction helpers (C3, C4) -/

theorem isApiPath_ne (p : String) (h : isApiPathB p = true) :
    (p == "/") = false ∧ (p == "") = false ∧ (p == "/_api/mounts") = false := by
  unfold isApiPathB at h
  rw [Bool.or_eq_true] at h
  rcases h with h | h
  · have hp : p = "/api" := by simpa using h
    subst hp
    exact ⟨by decide, by decide, by decide⟩
  · obtain ⟨t, rfl⟩ := (jsStartsWith_iff p "/api/").mp h
    have hd : ("/api/" ++ t).data = '/' :: 'a' :: 'p' :: 'i' :: '/' :: t.data := by
      rw [String.data_append]
      rfl
    refine ⟨?_, ?_, ?_⟩ <;>
      · rw [beq_eq_false_iff_ne]
        intro he
        have h2 := congrArg String.data he
        rw [hd] at h2
        simp at h2

theorem checkApiAuth_denied_shape (full read : Option String) (method : String)
    (header : Option String) :
    ∀ r, checkApiAuth full read method header = .denied r → r = read403 ∨ r = token401 := by
  intro r h
  unfold checkApiAuth at h
  split at h
  · simp at h
  · split at h
    · simp at h
    · split at h
      · split at h
        · simp at h
        · left; exact (ApiAuthResult.denied.inj h).symm
      · right; exact (ApiAuthResult.denied.inj h).symm

theorem checkApiAuth_no_header (full read : Option String) (method : String)
    (hen : (jsTruthyStr full || jsTruthyStr read) = true) :
    checkApiAuth full read method none = .denied token401 := by
  have hc : (!(jsTruthyStr full) && !(jsTruthyStr read)) = false := by
    have hor : jsTruthyStr full = true ∨ jsTruthyStr read = true := by simpa using hen
    rcases hor with h | h <;> simp [h]
  unfold checkApiAuth
  rw [hc]
  simp only [Bool.false_eq_true, if_false]
  rw [show bearerOf none = none from rfl, tokensEqual_none_left, tokensEqual_none_left]
  rfl

theorem dispatch_api_reduce (cfg : ServerConfig) (method p : String) (header : Option String)
    (hm : method ≠ "OPTIONS") (hapi : isApiPathB p = true)
    (hr1 : p ≠ "/api") (hr2 : p ≠ "/api/") :
    dispatch cfg method p header =
      (match bestMatch cfg.mounts p with
        | some m =>
          if isApiPathB p && !(truthyB m.skipAuth) then
            match checkApiAuth cfg.apiToken cfg.apiReadToken method header with
            | .denied r => .response r
            | .ok => .handler m (subPathOf p m)
          else .handler m (subPathOf p m)
        | none =>
          match checkApiAuth cfg.apiToken cfg.apiReadToken method header with
          | .denied r => .response r
          | .ok => .response notFound404) := by
  obtain ⟨h1, h2, h3⟩ := isApiPath_ne p hapi
  unfold dispatch
  rw [if_neg (by simpa using hm)]
  rw [if_neg (by rw [hapi]; simp)]
  rw [if_neg (by
    rw [show (p == "/api") = false from by simpa using hr1,
      show (p == "/api/") = false from by simpa using hr2]
    simp)]
  rw [if_neg (by rw [h1, h2]; simp)]
  rw [if_neg (by rw [h3]; simp)]
  rcases hb : bestMatch cfg.mounts p with _ | m
  · rw [hapi]
    simp
  · rfl

theorem dispatch_root_reduce (cfg : ServerConfig) (method : String) (header : Option String)
    (p : String) (hm : method ≠ "OPTIONS") (hr : p = "/api" ∨ p = "/api/") :
    dispatch cfg method p header =
      (match checkApiAuth cfg.apiToken cfg.apiReadToken method header with
        | .denied r => .response r
        | .ok => .apiListing (getApiMounts cfg.mounts) cfg.apiToken.isSome
            cfg.apiReadToken.isSome) := by
  have hapi : isApiPathB p = true := by rcases hr with rfl | rfl <;> decide
  unfold dispatch
  rw [if_neg (by simpa using hm)]
  rw [if_neg (by rw [hapi]; simp)]
  rw [if_pos (by rcases hr with rfl | rfl <;> decide)]

/-! ## C1 — router correctness -/

theorem routeLoop_acc (p : String) (l : List MountConfig) :
    ∀ b : MountConfig,
      ∃ m, routeLoop p l (some b) = some m
        ∧ b.pfx.data.length ≤ m.pfx.data.length
        ∧ (∀ c ∈ l, matchesPath p c = true → c.pfx.data.length ≤ m.pfx.data.length)
        ∧ (m = b ∨ (matchesPath p m = true
            ∧ ∃ l1 l2, l = l1 ++ m :: l2
              ∧ b.pfx.data.length < m.pfx.data.length
              ∧ ∀ c ∈ l1, matchesPath p c = true → c.pfx.data.length < m.pfx.data.length)) := by
  induction l with
  | nil =>
    intro b
    exact ⟨b, rfl, Nat.le_refl _, by simp, Or.inl rfl⟩
  | cons c cs ih =>
    intro b
    by_cases hc : matchesPath p c = true
    · by_cases hlt : b.pfx.data.length < c.pfx.data.length
      · have hred : routeLoop p (c :: cs) (some b) = routeLoop p cs (some c) := by
          simp only [routeLoop, hc, if_pos, hlt, if_true]
        obtain ⟨m, hm, hbm, hmax, hsplit⟩ := ih c
        rw [hred]
        refine ⟨m, hm, Nat.le_trans (Nat.le_of_lt hlt) hbm, ?_, ?_⟩
        · intro d hd hmd
          rcases List.mem_cons.mp hd with rfl | hd
          · exact hbm
          · exact hmax d hd hmd
        · rcases hsplit with rfl | ⟨hmm, l1, l2, hl, hcm, hl1⟩
          · exact Or.inr ⟨hc, [], cs, rfl, hlt, by simp⟩
          · refine Or.inr ⟨hmm, c :: l1, l2, by rw [hl]; rfl, Nat.lt_trans hlt hcm, ?_⟩
            intro d hd hmd
            rcases List.mem_cons.mp hd with rfl | hd
            · exact hcm
            · exact hl1 d hd hmd
      · have hred : routeLoop p (c :: cs) (some b) = routeLoop p cs (some b) := by
          simp only [routeLoop, hc, if_pos, hlt, if_false]
        obtain ⟨m, hm, hbm, hmax, hsplit⟩ := ih b
        have hcle : c.pfx.data.length ≤ b.pfx.data.length := Nat.le_of_not_lt hlt
        rw [hred]
        refine ⟨m, hm, hbm, ?_, ?_⟩
        · intro d hd hmd
          rcases List.mem_cons.mp hd with rfl | hd
          · exact Nat.le_trans hcle hbm
          · exact hmax d hd hmd
        · rcases hsplit with rfl | ⟨hmm, l1, l2, hl, hbmlt, hl1⟩
          · exact Or.inl rfl
          · refine Or.inr ⟨hmm, c :: l1, l2, by rw [hl]; rfl, hbmlt, ?_⟩
            intro d hd hmd
            rcases List.mem_cons.mp hd with rfl | hd
            · exact Nat.lt_of_le_of_lt hcle hbmlt
            · exact hl1 d hd hmd
    · have hred : routeLoop p (c :: cs) (some b) = routeLoop p cs (some b) := by
        simp only [routeLoop, hc, if_neg, Bool.false_eq_true, if_false]
      obtain ⟨m, hm, hbm, hmax, hsplit⟩ := ih b
      rw [hred]
      refine ⟨m, hm, hbm, ?_, ?_⟩
      · intro d hd hmd
        rcases List.mem_cons.mp hd with rfl | hd
        · exact absurd hmd hc
        · exact hmax d hd hmd
      · rcases hsplit with rfl | ⟨hmm, l1, l2, hl, hbmlt, hl1⟩
        · exact Or.inl rfl
        · refine Or.inr ⟨hmm, c :: l1, l2, by rw [hl]; rfl, hbmlt, ?_⟩
          intro d hd hmd
          rcases List.mem_cons.mp hd with rfl | hd
          · exact absurd hmd hc
          · exact hl1 d hd hmd

theorem routeLoop_none_char (p : String) (l : List MountConfig) :
    (routeLoop p l none = none ↔ ∀ c ∈ l, matchesPath p c = false)
    ∧ (∀ m, routeLoop p l none = some m →
        matchesPath p m = true
        ∧ (∀ c ∈ l, matchesPath p c = true → c.pfx.data.length ≤ m.pfx.data.length)
        ∧ ∃ l1 l2, l = l1 ++ m :: l2
            ∧ ∀ c ∈ l1, matchesPath p c = true → c.pfx.data.length < m.pfx.data.length) := by
  induction l with
  | nil =>
    constructor
    · simp [routeLoop]
    · intro m h; simp [routeLoop] at h
  | cons c cs ih =>
    by_cases hc : matchesPath p c = true
    · have hred : routeLoop p (c :: cs) none = routeLoop p cs (some c) := by
        simp only [routeLoop, hc, if_pos]
      obtain ⟨m, hm, hcm, hmax, hsplit⟩ := routeLoop_acc p cs c
      constructor
      · rw [hred, hm]
        refine iff_of_false (by simp) ?_
        intro hall
        have h0 := hall c (List.mem_cons_self c cs)
        rw [hc] at h0
        exact absurd h0 (by simp)
      · intro m' hm'
        rw [hred, hm] at hm'
        obtain rfl := (Option.some.inj hm').symm
        refine ⟨?_, ?_, ?_⟩
        · rcases hsplit with rfl | ⟨hmm, -, -, -, -, -⟩
          · exact hc
          · exact hmm
        · intro d hd hmd
          rcases List.mem_cons.mp hd with rfl | hd
          · exact hcm
          · exact hmax d hd hmd
        · rcases hsplit with rfl | ⟨hmm, l1, l2, hl, hclt, hl1⟩
          · exact ⟨[], cs, rfl, by simp⟩
          · refine ⟨c :: l1, l2, by rw [hl]; rfl, ?_⟩
            intro d hd hmd
            rcases List.mem_cons.mp hd with rfl | hd
            · exact hclt
            · exact hl1 d hd hmd
    · have hred : routeLoop p (c :: cs) none = routeLoop p cs none := by
        simp only [routeLoop, hc, if_neg, Bool.false_eq_true, if_false]
      obtain ⟨ih1, ih2⟩ := ih
      constructor
      · rw [hred, ih1]
        constructor
        · intro h d hd
          rcases List.mem_cons.mp hd with rfl | hd
          · simpa using hc
          · exact h d hd
        · intro h d hd
          exact h d (List.mem_cons_of_mem c hd)
      · intro m hm
        obtain ⟨h1, h2, l1, l2, hl, hl1⟩ := ih2 m (hred ▸ hm)
        refine ⟨h1, ?_, c :: l1, l2, by rw [hl]; rfl, ?_⟩
        · intro d hd hmd
          rcases List.mem_cons.mp hd with rfl | hd
          · exact absurd hmd hc
          · exact h2 d hd hmd
        · intro d hd hmd
          rcases List.mem_cons.mp hd with rfl | hd
          · exact absurd hmd hc
          · exact hl1 d hd hmd

theorem matchesPath_decomp (p : String) (c : MountConfig) (h : matchesPath p c = true) :
    ∃ rest : String, p = c.pfx ++ rest
      ∧ subPathOf p c = (if rest = "" then "/" else rest) := by
  unfold matchesPath at h
  rw [Bool.or_eq_true] at h
  rcases h with h | h
  · have hp : p = c.pfx := by simpa using h
    subst hp
    have hs : jsSlice c.pfx c.pfx.data.length = "" := by
      apply String.ext
      show c.pfx.data.drop c.pfx.data.length = ("" : String).data
      rw [List.drop_length]
    refine ⟨"", (String.append_empty c.pfx).symm, ?_⟩
    unfold subPathOf
    rw [hs]
    simp
  · obtain ⟨t, ht⟩ := (jsStartsWith_iff p (c.pfx ++ "/")).mp h
    have hrest : p = c.pfx ++ ("/" ++ t) := by rw [ht, String.append_assoc]
    have hs : jsSlice p c.pfx.data.length = "/" ++ t := by
      apply String.ext
      show p.data.drop c.pfx.data.length = ("/" ++ t).data
      rw [hrest, String.data_append, List.drop_left]
    have hne : ("/" ++ t : String) ≠ "" := by
      intro he
      have h2 := congrArg String.data he
      rw [String.data_append] at h2
      exact List.cons_ne_nil '/' t.data h2
    refine ⟨"/" ++ t, hrest, ?_⟩
    unfold subPathOf
    rw [hs, if_neg (by simpa using hne), if_neg hne]

/-- C1: the router returns no registration exactly when no registration
matches the path (equality with the prefix, or extension past the prefix and a
"/"); a returned registration matches the path, has maximal prefix length
among all matching registrations, is the first-seen registration with that
maximal length (every earlier matching registration is strictly shorter), and
the computed subPath is the path with the matched prefix removed, or "/" when
the remainder is empty. -/
theorem router_correctness (reg : List MountConfig) (p : String) :
    (bestMatch reg p = none ↔ ∀ c ∈ reg, matchesPath p c = false)
    ∧ (∀ m, bestMatch reg p = some m →
        matchesPath p m = true
        ∧ (∀ c ∈ reg, matchesPath p c = true → c.pfx.data.length ≤ m.pfx.data.length)
        ∧ (∃ l1 l2, reg = l1 ++ m :: l2
            ∧ ∀ c ∈ l1, matchesPath p c = true → c.pfx.data.length < m.pfx.data.length)
        ∧ (∃ rest : String, p = m.pfx ++ rest
            ∧ subPathOf p m = (if rest = "" then "/" else rest))) := by
  obtain ⟨h1, h2⟩ := routeLoop_none_char p reg
  refine ⟨h1, ?_⟩
  intro m hm
  obtain ⟨ha, hb, hc⟩ := h2 m hm
  exact ⟨ha, hb, hc, matchesPath_decomp p m ha⟩

/-- C1 (witness): the characterization evaluated on a concrete registry where
the longer of two nested prefixes wins and the subPath is the stripped rest. -/
theorem router_correctness_witness :
    matchesPath "/ext/sub/x" ⟨"b", none, none, "/ext/sub", none⟩ = true
    ∧ (∃ rest : String, "/ext/sub/x" = ("/ext/sub" : String) ++ rest
        ∧ subPathOf "/ext/sub/x" ⟨"b", none, none, "/ext/sub", none⟩ =
          (if rest = "" then "/" else rest)) := by
  have h := (router_correctness
    [⟨"a", none, none, "/ext", none⟩, ⟨"b", none, none, "/ext/sub", none⟩]
    "/ext/sub/x").2 ⟨"b", none, none, "/ext/sub", none⟩ (by decide)
  exact ⟨h.1, h.2.2.2⟩

/-! ## C4 — gated 404 on the API namespace -/

/-- C4 (counterexample): with the full token configured as the empty string
and no valid token presented, an unmatched API path yields 404, not the 401
the claim requires when "a token is configured". -/
theorem unmatched_api_cex :
    dispatch ⟨[], none, some "", none⟩ "GET" "/api/x" none = .response notFound404
    ∧ (some "" : Option String) ≠ none
    ∧ Outcome.response notFound404 ≠ .response token401 := by
  exact ⟨by decide, by simp, by decide⟩

/-- C4 (amended): for a non-preflight request whose path is under the API
namespace and matches no mount, the token gate runs before the 404: the
response is exactly the gate's denial whenever the gate denies, a 404 is
produced only when the gate allows (the API root instead answers the listing),
and when a token is configured as a non-empty string and the request carries
no Authorization header the response is the 401, not 404. -/
theorem unmatched_api_gated (cfg : ServerConfig) (method p : String) (header : Option String)
    (hm : method ≠ "OPTIONS") (hapi : isApiPathB p = true)
    (hnone : bestMatch cfg.mounts p = none) :
    (∀ r, checkApiAuth cfg.apiToken cfg.apiReadToken method header = .denied r →
        dispatch cfg method p header = .response r)
    ∧ (checkApiAuth cfg.apiToken cfg.apiReadToken method header = .ok →
        p ≠ "/api" → p ≠ "/api/" →
        dispatch cfg method p header = .response notFound404)
    ∧ (dispatch cfg method p header = .response notFound404 →
        checkApiAuth cfg.apiToken cfg.apiReadToken method header = .ok)
    ∧ ((jsTruthyStr cfg.apiToken || jsTruthyStr cfg.apiReadToken) = true → header = none →
        dispatch cfg method p header = .response token401) := by
  have hden : ∀ r, checkApiAuth cfg.apiToken cfg.apiReadToken method header = .denied r →
      dispatch cfg method p header = .response r := by
    intro r hr
    by_cases hroot : p = "/api" ∨ p = "/api/"
    · rw [dispatch_root_reduce cfg method header p hm hroot, hr]
    · push_neg at hroot
      rw [dispatch_api_reduce cfg method p header hm hapi hroot.1 hroot.2, hnone, hr]
  refine ⟨hden, ?_, ?_, ?_⟩
  · intro hok hr1 hr2
    rw [dispatch_api_reduce cfg method p header hm hapi hr1 hr2, hnone, hok]
  · intro h404
    rcases hg : checkApiAuth cfg.apiToken cfg.apiReadToken method header with _ | r
    · rfl
    · exfalso
      rw [hden r hg] at h404
      have hr := Outcome.response.inj h404
      rcases checkApiAuth_denied_shape cfg.apiToken cfg.apiReadToken method header r hg
        with h | h <;> rw [h] at hr <;> exact absurd hr (by decide)
  · intro hen hh
    subst hh
    exact hden token401 (checkApiAuth_no_header cfg.apiToken cfg.apiReadToken method hen)

/-- C4 (witness): a concrete unmatched API request with a configured token and
no header receives the 401, not 404. -/
theorem unmatched_api_gated_witness :
    dispatch ⟨[], none, some "F", none⟩ "GET" "/api/x" none = .response token401 := by
  exact (unmatched_api_gated ⟨[], none, some "F", none⟩ "GET" "/api/x" none
    (by decide) (by decide) rfl).2.2.2 (by decide) rfl

/-! ## C3 — skipAuth opt-out -/

/-- C3 (counterexample): a skipAuth mount registered at the prefix "/api"
itself (reachable via the /api-scoped registration with prefix "/") is never
handed the API-root request: the path "/api" matches the mount and is its best
match, yet with a full token configured and no header the dispatch answers the
token gate's 401 instead of invoking the handler. -/
theorem skipAuth_cex :
    dispatch ⟨[⟨"x", none, none, "/api", some true⟩], none, some "F", none⟩
        "GET" "/api" none = .response token401
    ∧ matchesPath "/api" ⟨"x", none, none, "/api", some true⟩ = true
    ∧ bestMatch [⟨"x", none, none, "/api", some true⟩] "/api" =
        some ⟨"x", none, none, "/api", some true⟩
    ∧ truthyB (some true) = true
    ∧ isApiPathB "/api" = true
    ∧ Outcome.response token401 ≠
        .handler ⟨"x", none, none, "/api", some true⟩
          (subPathOf "/api" ⟨"x", none, none, "/api", some true⟩) := by
  refine ⟨by decide, by decide, by decide, by decide, by decide, by decide⟩

/-- C3 (amended): for any non-preflight request under the API namespace other
than the API root paths "/api" and "/api/", if the router's best match has
skipAuth set the handler is invoked with no token check for any header
(including none); if the best match does not have skipAuth set, the dispatch
answers exactly the token gate's 401/403 when the gate denies and invokes the
handler when it allows. -/
theorem skipAuth_dispatch (cfg : ServerConfig) (method p : String) (header : Option String)
    (m : MountConfig) (hm : method ≠ "OPTIONS")
    (hmatch : bestMatch cfg.mounts p = some m)
    (hapi : isApiPathB p = true) (hr1 : p ≠ "/api") (hr2 : p ≠ "/api/") :
    (truthyB m.skipAuth = true →
        dispatch cfg method p header = .handler m (subPathOf p m))
    ∧ (truthyB m.skipAuth = false →
        dispatch cfg method p header =
          (match checkApiAuth cfg.apiToken cfg.apiReadToken method header with
            | .denied r => .response r
            | .ok => .handler m (subPathOf p m))) := by
  rw [dispatch_api_reduce cfg method p header hm hapi hr1 hr2, hmatch]
  constructor
  · intro hskip
    simp [hskip]
  · intro hskip
    simp [hskip, hapi]

/-- C3 (witness): with a full token configured and no Authorization header, a
skipAuth mount under /api/ext is reached, while a mount without skipAuth gets
the 401. -/
theorem skipAuth_dispatch_witness :
    dispatch ⟨[⟨"s", none, none, "/api/ext", some true⟩], none, some "F", none⟩
        "GET" "/api/ext/anything" none =
      .handler ⟨"s", none, none, "/api/ext", some true⟩ "/anything"
    ∧ dispatch ⟨[⟨"o", none, none, "/api/other", none⟩], none, some "F", none⟩
        "GET" "/api/other/x" none = .response token401 := by
  constructor
  · have h := (skipAuth_dispatch ⟨[⟨"s", none, none, "/api/ext", some true⟩], none,
      some "F", none⟩ "GET" "/api/ext/anything" none ⟨"s", none, none, "/api/ext", some true⟩
      (by decide) (by decide) (by decide) (by decide) (by decide)).1 (by decide)
    rw [h]
    rw [show subPathOf "/api/ext/anything" ⟨"s", none, none, "/api/ext", some true⟩ =
      "/anything" from by decide]
  · have h := (skipAuth_dispatch ⟨[⟨"o", none, none, "/api/other", none⟩], none,
      some "F", none⟩ "GET" "/api/other/x" none ⟨"o", none, none, "/api/other", none⟩
      (by decide) (by decide) (by decide) (by decide) (by decide)).2 (by decide)
    rw [h]
    rw [show checkApiAuth (some "F") none "GET" none = .denied token401 from by decide]

/-! ## C9 — stop() idempotence -/

theorem runLife_port_invariant (ops : List LifeOp) :
    (runLife ops).serverLive = false → (runLife ops).serverPort = none := by
  unfold runLife
  generalize hst : initialLifecycle = st
  have hinv : st.serverLive = false → st.serverPort = none := by
    rw [← hst]; intro _; rfl
  clear hst
  induction ops generalizing st with
  | nil => exact hinv
  | cons op rest ih =>
    simp only [List.foldl_cons]
    apply ih
    cases op with
    | strt p => intro h; simp [applyLife, startServer] at h
    | stp =>
      intro h
      simp only [applyLife, stop]
      by_cases hl : st.serverLive
      · simp [hl]
      · simp only [hl, if_false]
        exact hinv (by simpa using hl)

/-- C9: `stop()` returns whether a server was running; afterwards `isRunning`
is false and `getPort`/`getUrl` are null; a second `stop()` returns false and
leaves the state unchanged, so `stop();stop()` is observably `stop()`. -/
theorem stop_spec (ops : List LifeOp) :
    (stop (runLife ops)).1 = isRunning (runLife ops)
    ∧ isRunning (stop (runLife ops)).2 = false
    ∧ getPort (stop (runLife ops)).2 = none
    ∧ getUrl (stop (runLife ops)).2 = none
    ∧ (isRunning (runLife ops) = false → stop (runLife ops) = (false, runLife ops))
    ∧ stop (stop (runLife ops)).2 = (false, (stop (runLife ops)).2) := by
  have hinv := runLife_port_invariant ops
  generalize hst : runLife ops = st at *
  by_cases hl : st.serverLive
  · simp [stop, isRunning, getPort, getUrl, hl]
  · have hb : st.serverLive = false := by simpa using hl
    have hp : st.serverPort = none := hinv hb
    simp [stop, isRunning, getPort, getUrl, hb, hp]

/-- C9 (witness): the theorem evaluated after a concrete start/stop history. -/
theorem stop_spec_witness :
    stop (runLife []) = (false, runLife [])
    ∧ (stop (runLife [LifeOp.strt 4100])).1 = true := by
  constructor
  · exact (stop_spec []).2.2.2.2.1 rfl
  · have := (stop_spec [LifeOp.strt 4100]).1
    rw [this]; rfl

/-! ## C10 — status observers leak no secrets -/

/-- C10: `getAuth` depends only on whether credentials are set and on the
username, never the password; `getApiTokenStatus` depends only on whether each
token is set, never its bytes. -/
theorem observers_no_secret_leak :
    (∀ u p p' : String, getAuth (some (u, p)) = getAuth (some (u, p')))
    ∧ (∀ (t t' : String) (r : Option String),
        getApiTokenStatus (some t) r = getApiTokenStatus (some t') r)
    ∧ (∀ (f : Option String) (t t' : String),
        getApiTokenStatus f (some t) = getApiTokenStatus f (some t')) :=
  ⟨fun _ _ _ => rfl, fun _ _ _ => rfl, fun _ _ _ => rfl⟩

end PiWeb
